import Mathlib

/-!
# DevContext Sync — verification of the core algorithms

Shallow embedding of the DevContext Sync repository's core algorithms:
the duplicate detector, the search scorer, the context matcher's merge
step (client code in `src/storage.js` and the VS Code extension's
`ContextMatcher`), and the push/pull sync protocol (server code in
`src/backend/src/routes/sync.ts`, client sync loop in `src/storage.js`).

JS strings are modelled as `List Char`; JS numbers are modelled as `ℤ`
(integer counters and 32-bit hashes, with explicit wrap-around) or `ℚ`
(similarity ratios and scores).  Character classes mirror the ASCII
behaviour of the regexes in the source (`\w`, `\s`).
-/

namespace DevContext

/-- JS strings, modelled as lists of characters. -/
abbrev JStr := List Char

/-- The ASCII whitespace characters matched by the `\s`-based regexes in
`storage.js` (inputs of interest are ASCII). -/
def isSpaceChar (c : Char) : Bool :=
  c == ' ' || c == '\t' || c == '\n' || c == '\r'

/-- Word characters of the JS `\w` class (ASCII letters, digits, underscore). -/
def isWordChar (c : Char) : Bool :=
  c.isAlphanum || c == '_'

/-- `s.toLowerCase()`. -/
def toLowerStr (s : JStr) : JStr := s.map Char.toLower

/-- `s.trim()`: drop leading and trailing whitespace. -/
def trimStr (s : JStr) : JStr :=
  ((s.dropWhile isSpaceChar).reverse.dropWhile isSpaceChar).reverse

/-- Collapse every run of whitespace to a single space character:
the `replace(/\s+/g, ' ')` step of `normalizeContent`. -/
def collapseWS : JStr → JStr
  | [] => []
  | [c] => if isSpaceChar c then [' '] else [c]
  | c1 :: c2 :: rest =>
    if isSpaceChar c1 then
      if isSpaceChar c2 then collapseWS (c2 :: rest)
      else ' ' :: collapseWS (c2 :: rest)
    else c1 :: collapseWS (c2 :: rest)

/-- `normalizeContent` from `src/storage.js`:
`content.trim().toLowerCase().replace(/\s+/g, ' ')`
(the `!content` guard is the identity on the empty string). -/
def normalizeContent (content : JStr) : JStr :=
  collapseWS (toLowerStr (trimStr content))

/-- Wrap an integer to the range of a 32-bit two's-complement integer,
as JS `ToInt32` (`hash & hash`, `<<`) does. -/
def toInt32 (n : ℤ) : ℤ := (n + 2 ^ 31) % 2 ^ 32 - 2 ^ 31

/-- One step of the rolling hash in `hashContent`:
`hash = ((hash << 5) - hash) + charCode; hash = hash & hash`.
`hash << 5` is itself a 32-bit operation in JS. -/
def hashStep (h : ℤ) (c : Char) : ℤ :=
  toInt32 (toInt32 (32 * h) - h + (c.toNat : ℤ))

/-- `hashContent` from `src/storage.js`.  The source returns the empty
string for empty input and `hash.toString(16)` otherwise; since
`toString(16)` is injective on 32-bit integers, string equality of the
outputs is equality of `Option ℤ` values (`none` for the empty string). -/
def hashContent (s : JStr) : Option ℤ :=
  match s with
  | [] => none
  | _ => some (s.foldl hashStep 0)

/-- Split a string by a character predicate, dropping empty chunks
(the empty chunks a JS `split` can produce are all removed by the
`length > 2` filters at every call site). -/
def splitByAux (p : Char → Bool) : JStr → JStr → List JStr
  | [], acc => if acc.isEmpty then [] else [acc.reverse]
  | c :: cs, acc =>
    if p c then
      if acc.isEmpty then splitByAux p cs []
      else acc.reverse :: splitByAux p cs []
    else splitByAux p cs (c :: acc)

def splitBy (p : Char → Bool) (s : JStr) : List JStr := splitByAux p s []

/-- `str.split(' ')` followed by the `length > 2` filter,
as in `calculateSimilarity`. -/
def simWords (s : JStr) : List JStr :=
  (splitBy (· == ' ') s).filter (fun w => w.length > 2)

/-- Distinct-element count of a list (JS `Set` size). -/
def setSize (l : List JStr) : ℕ := l.dedup.length

/-- Rational multiplication written so that the kernel can evaluate it on
concrete values (`Rat.mul` itself does not reduce); `ratMul_eq` shows it is
ordinary multiplication. -/
def ratMul (a b : ℚ) : ℚ := Rat.divInt (a.num * b.num) ((a.den : ℤ) * (b.den : ℤ))

/-- Rational addition written so that the kernel can evaluate it on concrete
values; `ratAdd_eq` shows it is ordinary addition. -/
def ratAdd (a b : ℚ) : ℚ :=
  Rat.divInt (a.num * b.den + b.num * a.den) ((a.den : ℤ) * (b.den : ℤ))




/-- `calculateSimilarity` from `src/storage.js`: Jaccard similarity of the
two words-of-length->2 sets (`intersection.size / union.size`). -/
def calculateSimilarity (str1 str2 : JStr) : ℚ :=
  if str1.isEmpty || str2.isEmpty then 0
  else
    let words1 := (simWords str1).dedup
    let words2 := (simWords str2).dedup
    if words1.isEmpty || words2.isEmpty then 0
    else
      let inter := (words1.filter (fun x => x ∈ words2)).length
      let union := setSize (words1 ++ words2)
      mkRat inter union

/-- JS `Math.round` (round half toward positive infinity): `⌊q + 1/2⌋`. -/
def jsRound (q : ℚ) : ℤ := (ratAdd q (mkRat 1 2)).floor


/-- `tokenizeForSearch` from `src/storage.js`: lowercase, replace characters
outside `[\w\s]` by a space, split on whitespace, keep words of
length > 2 (the empty chunks a JS `split` produces are removed by that
filter). -/
def tokenizeForSearch (s : JStr) : List JStr :=
  (splitBy isSpaceChar
      ((toLowerStr s).map (fun c => if isWordChar c || isSpaceChar c then c else ' '))).filter
    (fun w => w.length > 2)

/-- The search weight profile (`{exact, word, partial}`; `partial` is a Lean
keyword, so that field is called `partW`). -/
structure SearchWeights where
  exact : ℕ
  word : ℕ
  partW : ℕ
deriving DecidableEq, Repr

/-- The inner loop of `calculateSearchScore`'s fuzzy branch: it breaks on
the first text word with a containment either way, so it adds the partial
weight exactly once when `any` such word exists. -/
def partialHit (textWords : List JStr) (qw : JStr) : Bool :=
  textWords.any (fun tw => decide (qw <:+: tw) || decide (tw <:+: qw))

/-- `calculateSearchScore` from `src/storage.js`: exact-phrase bonus plus a
per-query-word loop adding the word weight on a verbatim hit and otherwise
the partial weight on a containment hit.  `textWords` is a JS `Set`, hence
the `dedup`. -/
def calculateSearchScore (query text : JStr) (w : SearchWeights) : ℕ :=
  if query.isEmpty || text.isEmpty then 0
  else
    let queryLower := toLowerStr query
    let textLower := toLowerStr text
    let base := if queryLower <:+: textLower then w.exact * queryLower.length else 0
    let queryWords := tokenizeForSearch query
    let textWords := (tokenizeForSearch text).dedup
    queryWords.foldl
      (fun score qw =>
        score +
          (if qw ∈ textWords then w.word
           else if partialHit textWords qw then w.partW else 0)) base

/-- The reference scoring function, written from the spec's wording: the
exact weight times the lowercased query's length when the lowercased query
is a substring of the lowercased text, plus, for each query token, the word
weight on a verbatim occurrence among the text tokens, else the partial
weight when some text token contains the query token or vice versa. -/
def searchScoreSpec (query text : JStr) (w : SearchWeights) : ℕ :=
  (if toLowerStr query <:+: toLowerStr text
   then w.exact * (toLowerStr query).length else 0) +
  ((tokenizeForSearch query).map (fun qw =>
      if qw ∈ tokenizeForSearch text then w.word
      else if (tokenizeForSearch text).any
          (fun tw => decide (qw <:+: tw) || decide (tw <:+: qw)) then w.partW
      else 0)).sum

/-- A snippet as the duplicate detector sees it. -/
structure Snippet where
  id : ℕ
  code : JStr
deriving DecidableEq, Repr

/-- A knowledge item as the duplicate detector sees it. -/
structure Knowledge where
  id : ℕ
  question : JStr
  answer : JStr
deriving DecidableEq, Repr

/-- Result of a duplicate check (`{isDuplicate, matchType, similarity?,
existingItem?}`). -/
inductive DupResult (α : Type) where
  | noDup
  | exact (item : α)
  | similar (pct : ℤ) (item : α)
deriving DecidableEq, Repr

def DupResult.isDuplicate {α : Type} : DupResult α → Bool
  | .noDup => false
  | _ => true

/-- The scan loop of `findDuplicateSnippet`: for each same-project snippet,
first the normalized-hash exact check, then the `similarity > 0.8` check;
first match wins. -/
def findDupSnippetAux (nNew : JStr) (hNew : Option ℤ) :
    List Snippet → DupResult Snippet
  | [] => .noDup
  | s :: rest =>
    let nEx := normalizeContent s.code
    if hashContent nEx = hNew then .exact s
    else
      let sim := calculateSimilarity nNew nEx
      if sim > mkRat 4 5 then .similar (jsRound (ratMul sim 100)) s
      else findDupSnippetAux nNew hNew rest

/-- `findDuplicateSnippet` from `src/storage.js`, over the list of snippets
of the target project in store order. -/
def findDuplicateSnippet (code : JStr) (snips : List Snippet) :
    DupResult Snippet :=
  let nNew := normalizeContent code
  findDupSnippetAux nNew (hashContent nNew) snips

/-- The scan loop of `findDuplicateKnowledge`: exact check on the hash of
the concatenated normalized question and answer, then the answer-only
`similarity > 0.85` check. -/
def findDupKnowledgeAux (nAns : JStr) (hComb : Option ℤ) :
    List Knowledge → DupResult Knowledge
  | [] => .noDup
  | k :: rest =>
    let exQ := normalizeContent k.question
    let exA := normalizeContent k.answer
    if hashContent (exQ ++ exA) = hComb then .exact k
    else
      let sim := calculateSimilarity nAns exA
      if sim > mkRat 17 20 then .similar (jsRound (ratMul sim 100)) k
      else findDupKnowledgeAux nAns hComb rest

/-- `findDuplicateKnowledge` from `src/storage.js`. -/
def findDuplicateKnowledge (question answer : JStr)
    (items : List Knowledge) : DupResult Knowledge :=
  let nQ := normalizeContent question
  let nA := normalizeContent answer
  findDupKnowledgeAux nA (hashContent (nQ ++ nA)) items

/-! ## Context Matcher (VS Code extension, `ContextMatcher.ts`) -/

/-- The `MatchReason.type` union. -/
inductive ReasonType where
  | error_match | language_match | tag_match
  | import_match | framework_match | text_similarity
deriving DecidableEq, Repr

/-- `MatchReason` from `ContextMatcher.ts`. -/
structure MatchReason where
  rtype : ReasonType
  confidence : ℚ
  details : JStr
deriving DecidableEq, Repr

/-- The two kinds of matched items. -/
inductive ItemType where
  | snippet | knowledge
deriving DecidableEq, Repr

/-- `MatchResult` from `ContextMatcher.ts`; the carried item is represented
by its id, which is all `deduplicateAndSort` reads of it. -/
structure MatchResult where
  itemId : ℕ
  itemType : ItemType
  relevanceScore : ℚ
  matchReasons : List MatchReason
deriving DecidableEq, Repr

/-- The deduplication key `` `${result.type}:${result.item.id}` ``. -/
def MatchResult.key (r : MatchResult) : ItemType × ℕ := (r.itemType, r.itemId)

/-- Distinct deduplication keys, the relation of the at-most-one-entry-per-key
property. -/
def keyNe (a b : MatchResult) : Prop := a.key ≠ b.key

/-- Non-increasing relevance score, the relation of the descending sort
(`sort((a, b) => b.relevanceScore - a.relevanceScore)`). -/
def scoreGe (a b : MatchResult) : Prop := b.relevanceScore ≤ a.relevanceScore

instance : DecidableRel keyNe := fun _ _ => instDecidableNot
instance : DecidableRel scoreGe := fun _ _ => Rat.instDecidableLe _ _

/-- `Math.max`. -/
def jsMax (a b : ℚ) : ℚ := if a < b then b else a


/-- One step of `deduplicateAndSort`'s loop over a JS `Map` in insertion
order: if no entry has the candidate's key, the candidate is appended; if
the first entry with that key has a strictly smaller score, it is replaced
in place by the candidate carrying the concatenated reason lists and the
max of the two scores; otherwise the map is unchanged (and the candidate's
reasons are discarded). -/
def mergeInto : List MatchResult → MatchResult → List MatchResult
  | [], r => [r]
  | e :: rest, r =>
    if e.key = r.key then
      if r.relevanceScore > e.relevanceScore then
        { r with
          matchReasons := e.matchReasons ++ r.matchReasons,
          relevanceScore := jsMax r.relevanceScore e.relevanceScore } :: rest
      else e :: rest
    else e :: mergeInto rest r

/-- `deduplicateAndSort` from `ContextMatcher.ts`: fold the candidates into
the key-indexed map, then sort the values descending by relevance score. -/
def deduplicateAndSort (results : List MatchResult) : List MatchResult :=
  List.insertionSort scoreGe (results.foldl mergeInto [])

/-! ## Sync server (`src/backend/src/routes/sync.ts`, `POST /sync/push`) -/

/-- A row of the `projects` table. -/
structure ProjRow where
  id : JStr
  userId : JStr
  name : JStr
  description : Option JStr
  createdAt : ℤ
  updatedAt : ℤ
  syncVersion : ℤ
  isDeleted : Bool
deriving DecidableEq, Repr

/-- A row of the `snippets` table. -/
structure SnipRow where
  id : JStr
  userId : JStr
  projectId : JStr
  code : JStr
  language : JStr
  description : Option JStr
  source : Option JStr
  contentHash : Option JStr
  createdAt : ℤ
  updatedAt : ℤ
  syncVersion : ℤ
  isDeleted : Bool
deriving DecidableEq, Repr

/-- A row of the `knowledge` table. -/
structure KnowRow where
  id : JStr
  userId : JStr
  projectId : JStr
  question : JStr
  answer : JStr
  source : Option JStr
  tags : Option (List JStr)
  contentHash : Option JStr
  createdAt : ℤ
  updatedAt : ℤ
  syncVersion : ℤ
  isDeleted : Bool
deriving DecidableEq, Repr

/-- A row of the `sync_sessions` table, keyed by (user, device). -/
structure SyncSession where
  userId : JStr
  deviceId : JStr
  syncVersion : ℤ
  lastSyncAt : ℤ
deriving DecidableEq, Repr

/-- A project change in a push body (after zod validation). -/
structure ProjChange where
  id : JStr
  name : JStr
  description : Option JStr
  createdAt : ℤ
  isDeleted : Option Bool
deriving DecidableEq, Repr

/-- A snippet change in a push body. -/
structure SnipChange where
  id : JStr
  projectId : JStr
  code : JStr
  language : JStr
  description : Option JStr
  source : Option JStr
  contentHash : Option JStr
  createdAt : ℤ
  isDeleted : Option Bool
deriving DecidableEq, Repr

/-- A knowledge change in a push body. -/
structure KnowChange where
  id : JStr
  projectId : JStr
  question : JStr
  answer : JStr
  source : Option JStr
  tags : Option (List JStr)
  contentHash : Option JStr
  createdAt : ℤ
  isDeleted : Option Bool
deriving DecidableEq, Repr

/-- The `changes` object of a push body; the absent-array case is the empty
list. -/
structure Changes where
  projects : List ProjChange
  snippets : List SnipChange
  knowledge : List KnowChange
deriving DecidableEq, Repr

/-- A `POST /sync/push` body. -/
structure PushBody where
  deviceId : JStr
  lastSyncVersion : ℤ
  changes : Changes
deriving DecidableEq, Repr

/-- The server database state relevant to sync. -/
structure ServerState where
  projects : List ProjRow
  snippets : List SnipRow
  knowledge : List KnowRow
  sessions : List SyncSession
deriving DecidableEq, Repr

/-- The push endpoint's possible responses (schema-valid bodies). -/
inductive PushResponse where
  | ok (syncVersion : ℤ)
  | badRequest (invalidProjectIds : List JStr)
deriving DecidableEq, Repr

/-- First-occurrence deduplication, the iteration order of
`[...new Set(list)]` in JS. -/
def dedupFirstAux (seen : List JStr) : List JStr → List JStr
  | [] => []
  | a :: l =>
    if a ∈ seen then dedupFirstAux seen l
    else a :: dedupFirstAux (a :: seen) l

def dedupFirst (l : List JStr) : List JStr := dedupFirstAux [] l

/-- The referenced project ids that are not created in the same batch
(`existingProjectCheck`). -/
def existingProjCheck (body : PushBody) : List JStr :=
  let pidsProjects := body.changes.projects.map (·.id)
  (dedupFirst (body.changes.snippets.map (·.projectId) ++
      body.changes.knowledge.map (·.projectId))).filter
    (fun pid => decide (pid ∉ pidsProjects))

/-- `validateProjectOwnership`'s invalid list: the checked ids that do not
belong to a project row owned by the requesting user.  (The route only
calls the validator when `existingProjectCheck` is nonempty; when it is
empty this list is empty too, so the collapsed form is equivalent.) -/
def invalidRefs (st : ServerState) (u : JStr) (body : PushBody) : List JStr :=
  let checked := existingProjCheck body
  let ownedIds := (st.projects.filter
      (fun p => decide (p.userId = u ∧ p.id ∈ checked))).map (·.id)
  checked.filter (fun pid => decide (pid ∉ ownedIds))

/-- The set of project ids snippet/knowledge changes may reference
(`new Set([...projectIdsFromProjects, ...existingProjectCheck])`; only
membership is used). -/
def validProjIds (body : PushBody) : List JStr :=
  body.changes.projects.map (·.id) ++ existingProjCheck body

/-- PostgreSQL `INSERT ... ON CONFLICT (id) DO UPDATE ... WHERE owner = user`
for one value row: insert when no row carries the key; on conflict, update
the existing row only when the requesting user owns it, else leave it
untouched (`DO UPDATE` with a false `WHERE` affects no row). -/
def upsertRow {ρ : Type} (keyOf ownerOf : ρ → JStr) (u : JStr)
    (newRow : ρ) (updateWith : ρ → ρ) : List ρ → List ρ
  | [] => [newRow]
  | x :: rest =>
    if keyOf x = keyOf newRow then
      (if ownerOf x = u then updateWith x else x) :: rest
    else x :: upsertRow keyOf ownerOf u newRow updateWith rest

/-- Batch upsert: the multi-`VALUES` insert processed row by row. -/
def upsertBatch {γ ρ : Type} (keyOf ownerOf : ρ → JStr) (u : JStr)
    (mkRow : γ → ρ) (updRow : γ → ρ → ρ) (rows : List ρ) (cs : List γ) :
    List ρ :=
  cs.foldl (fun acc c => upsertRow keyOf ownerOf u (mkRow c) (updRow c) acc) rows

/-- The inserted project row of a change (`userId` is the pusher,
`updatedAt := now`, `syncVersion := newSyncVersion`). -/
def projRowOfChange (u : JStr) (now newV : ℤ) (c : ProjChange) : ProjRow :=
  { id := c.id, userId := u, name := c.name, description := c.description,
    createdAt := c.createdAt, updatedAt := now, syncVersion := newV,
    isDeleted := c.isDeleted.getD false }

/-- `ON CONFLICT DO UPDATE SET name, description, updated_at, sync_version,
is_deleted` — `userId` and `createdAt` keep the existing row's values. -/
def projUpdate (now newV : ℤ) (c : ProjChange) (ex : ProjRow) : ProjRow :=
  { ex with
    name := c.name, description := c.description, updatedAt := now,
    syncVersion := newV, isDeleted := c.isDeleted.getD false }

/-- The inserted snippet row of a change. -/
def snipRowOfChange (u : JStr) (now newV : ℤ) (c : SnipChange) : SnipRow :=
  { id := c.id, userId := u, projectId := c.projectId, code := c.code,
    language := c.language, description := c.description, source := c.source,
    contentHash := c.contentHash, createdAt := c.createdAt, updatedAt := now,
    syncVersion := newV, isDeleted := c.isDeleted.getD false }

/-- `ON CONFLICT DO UPDATE SET code, language, description, source,
content_hash, updated_at, sync_version, is_deleted` — `userId`,
`projectId`, `createdAt` keep the existing row's values. -/
def snipUpdate (now newV : ℤ) (c : SnipChange) (ex : SnipRow) : SnipRow :=
  { ex with
    code := c.code, language := c.language,
    description := c.description, source := c.source,
    contentHash := c.contentHash, updatedAt := now, syncVersion := newV,
    isDeleted := c.isDeleted.getD false }

/-- The inserted knowledge row of a change. -/
def knowRowOfChange (u : JStr) (now newV : ℤ) (c : KnowChange) : KnowRow :=
  { id := c.id, userId := u, projectId := c.projectId,
    question := c.question, answer := c.answer, source := c.source,
    tags := c.tags, contentHash := c.contentHash, createdAt := c.createdAt,
    updatedAt := now, syncVersion := newV,
    isDeleted := c.isDeleted.getD false }

/-- `ON CONFLICT DO UPDATE SET question, answer, source, tags, content_hash,
updated_at, sync_version, is_deleted` — `userId`, `projectId`, `createdAt`
keep the existing row's values. -/
def knowUpdate (now newV : ℤ) (c : KnowChange) (ex : KnowRow) : KnowRow :=
  { ex with
    question := c.question, answer := c.answer, source := c.source,
    tags := c.tags, contentHash := c.contentHash, updatedAt := now,
    syncVersion := newV, isDeleted := c.isDeleted.getD false }

/-- The (user, device) session's current version, 0 when the session row
does not exist yet (a fresh session is inserted with `syncVersion: 0`). -/
def sessionVersionL (sessions : List SyncSession) (u d : JStr) : ℤ :=
  match sessions.find? (fun s => decide (s.userId = u ∧ s.deviceId = d)) with
  | some s => s.syncVersion
  | none => 0

def sessionVersion (st : ServerState) (u d : JStr) : ℤ :=
  sessionVersionL st.sessions u d

/-- Write the (user, device) session's version and `lastSyncAt`: the
existing row is updated in place; a missing row is the insert-then-update
of a fresh session. -/
def updSessionList : List SyncSession → JStr → JStr → ℤ → ℤ → List SyncSession
  | [], u, d, v, now => [⟨u, d, v, now⟩]
  | s :: rest, u, d, v, now =>
    if s.userId = u ∧ s.deviceId = d then
      { s with syncVersion := v, lastSyncAt := now } :: rest
    else s :: updSessionList rest u d v now

/-- The transaction body of the push route: look up the device session,
bump its version, upsert the project changes and the project-valid snippet
and knowledge changes stamped with the new version, and commit the session
update. -/
def applyPush (st : ServerState) (u : JStr) (now : ℤ) (body : PushBody) :
    PushResponse × ServerState :=
  let newV := sessionVersionL st.sessions u body.deviceId + 1
  let projects' := upsertBatch (·.id) (·.userId) u
    (projRowOfChange u now newV) (projUpdate now newV)
    st.projects body.changes.projects
  let validSnips := body.changes.snippets.filter
    (fun s => decide (s.projectId ∈ validProjIds body))
  let snippets' := upsertBatch (·.id) (·.userId) u
    (snipRowOfChange u now newV) (snipUpdate now newV)
    st.snippets validSnips
  let validKnow := body.changes.knowledge.filter
    (fun k => decide (k.projectId ∈ validProjIds body))
  let knowledge' := upsertBatch (·.id) (·.userId) u
    (knowRowOfChange u now newV) (knowUpdate now newV)
    st.knowledge validKnow
  let sessions' := updSessionList st.sessions u body.deviceId newV now
  (.ok newV,
    { projects := projects', snippets := snippets',
      knowledge := knowledge', sessions := sessions' })

/-- The push route for an authenticated user and a schema-valid body: when
some snippet/knowledge change references a project neither owned by the
user nor created in the batch, the whole request is rejected with 400 and
the listed invalid ids (the early `return` precedes the transaction);
otherwise the transaction runs. -/
def push (st : ServerState) (u : JStr) (now : ℤ) (body : PushBody) :
    PushResponse × ServerState :=
  if (invalidRefs st u body).isEmpty then applyPush st u now body
  else (.badRequest (invalidRefs st u body), st)

/-! ## Client sync engine (`src/storage.js`: `processSyncQueue`,
`pullFromCloud`, `saveDataDirect`) -/

/-- `syncStatus` values the client writes. -/
inductive SyncStatus where
  | pending | synced
deriving DecidableEq, Repr

/-- A local record as the client store holds it: `payload` stands for every
field the sync engine does not touch (code, name, tags, ...); `syncStatus`
and `lastSyncedAt` are `none` when the record does not carry the field. -/
structure ClientRec where
  id : JStr
  updatedAt : ℤ
  payload : ℕ
  syncStatus : Option SyncStatus
  lastSyncedAt : Option ℤ
deriving DecidableEq, Repr

/-- The three synced object stores. -/
inductive StoreName where
  | projects | snippets | knowledge
deriving DecidableEq, Repr

structure ClientStores where
  projects : List ClientRec
  snippets : List ClientRec
  knowledge : List ClientRec
deriving DecidableEq, Repr

def ClientStores.get (s : ClientStores) : StoreName → List ClientRec
  | .projects => s.projects
  | .snippets => s.snippets
  | .knowledge => s.knowledge

def ClientStores.set (s : ClientStores) :
    StoreName → List ClientRec → ClientStores
  | .projects, rows => { s with projects := rows }
  | .snippets, rows => { s with snippets := rows }
  | .knowledge, rows => { s with knowledge := rows }

/-- A Sync Queue item's `operation`. -/
inductive SyncOp where
  | upsert | delete
deriving DecidableEq, Repr

/-- A Sync Queue row (`{storeName, operation, data, timestamp, retries}`
with the auto-increment key `id`; `queueForSync` always enqueues with
`retries: 0`). -/
structure QueueItem where
  id : ℕ
  storeName : StoreName
  op : SyncOp
  data : ClientRec
  timestamp : ℤ
  retries : ℕ
deriving DecidableEq, Repr

/-- The module-level client state the sync engine reads and writes:
settings, the object stores, the durable sync queue and the `isSyncing`
guard flag. -/
structure ClientState where
  isPremium : Bool
  cloudSyncEnabled : Bool
  hasAuthToken : Bool
  apiUrlConfigured : Bool
  dbAvailable : Bool
  lastCloudPullAt : ℤ
  stores : ClientStores
  queue : List QueueItem
  isSyncing : Bool
deriving DecidableEq, Repr

/-- The network outcome of pushing one queue item. -/
inductive FetchOutcome where
  | ok
  | httpStatus (status : ℕ)
  | netThrow (msg : JStr)
deriving DecidableEq, Repr

/-- An entry of `processSyncQueue`'s `errors` array. -/
inductive SyncErr where
  | retryExceeded
  | thrown (msg : JStr)
deriving DecidableEq, Repr

/-- The structured results `processSyncQueue` can return. -/
inductive SyncResult where
  | alreadyInProgress
  | notEnabled
  | notConfigured
  | dbUnavailable
  | authFailed (synced : ℕ)
  | done (synced pending : ℕ) (errors : List SyncErr)
deriving DecidableEq, Repr

/-- `getById` on one store: first row with the id. -/
def getByIdL (rows : List ClientRec) (i : JStr) : Option ClientRec :=
  rows.find? (fun r => decide (r.id = i))

/-- IndexedDB `put`: replace the row carrying the key, else append. -/
def putRow : List ClientRec → ClientRec → List ClientRec
  | [], r => [r]
  | x :: rest, r => if x.id = r.id then r :: rest else x :: putRow rest r

/-- Stamp a record the way the sync engine marks applied/acknowledged rows:
`syncStatus = 'synced'`, `lastSyncedAt = Date.now()`. -/
def markSyncedRec (r : ClientRec) (now : ℤ) : ClientRec :=
  { r with syncStatus := some .synced, lastSyncedAt := some now }

/-- After a queue item is pushed, the stored record with the item's data id
(when that id is truthy and the record exists) is marked synced. -/
def markSyncedInStore (rows : List ClientRec) (i : JStr) (now : ℤ) :
    List ClientRec :=
  match getByIdL rows i with
  | some ex => putRow rows (markSyncedRec ex now)
  | none => rows

/-- `CLOUD_CONFIG.maxRetries`. -/
def maxRetries : ℕ := 3

/-- The `for (const item of items)` loop of `processSyncQueue` over the
snapshot taken from the queue store.  `fetch` maps an item's position in
the snapshot to its network outcome, `total` is the snapshot's length (for
the final `pending` count).  On success the item is deleted from the queue
and its stored record marked synced; a 401 disables cloud sync and returns
early; any other failure increments `retries` only on the in-memory
snapshot object — `item.retries + 1` is compared against the cap and the
incremented count is never written back to the queue store — and deletes
the item only when that count reaches the cap; a thrown fetch error is
recorded and the loop continues with the next item. -/
def processItems (fetch : ℕ → FetchOutcome) (now : ℤ) (total : ℕ) :
    List QueueItem → ℕ → ClientState → ℕ → List SyncErr →
    SyncResult × ClientState
  | [], _, st, synced, errors => (.done synced (total - synced) errors, st)
  | item :: rest, idx, st, synced, errors =>
    match fetch idx with
    | .ok =>
      let queue' := st.queue.filter (fun q => decide (q.id ≠ item.id))
      let stores' :=
        if item.data.id.isEmpty then st.stores
        else st.stores.set item.storeName
          (markSyncedInStore (st.stores.get item.storeName) item.data.id now)
      processItems fetch now total rest (idx + 1)
        { st with queue := queue', stores := stores' } (synced + 1) errors
    | .httpStatus s =>
      if s = 401 then
        (.authFailed synced, { st with cloudSyncEnabled := false })
      else if item.retries + 1 ≥ maxRetries then
        processItems fetch now total rest (idx + 1)
          { st with queue := st.queue.filter (fun q => decide (q.id ≠ item.id)) }
          synced (errors ++ [.retryExceeded])
      else
        processItems fetch now total rest (idx + 1) st synced errors
    | .netThrow m =>
      processItems fetch now total rest (idx + 1) st synced
        (errors ++ [.thrown m])

/-- `processSyncQueue` from `src/storage.js`: the guard and prerequisite
checks happen before `isSyncing` is set; the loop runs inside
`try { ... } finally { isSyncing = false }`, so the flag is cleared on
every exit from the loop, the early 401 return included. -/
def processSyncQueue (st : ClientState) (fetch : ℕ → FetchOutcome)
    (now : ℤ) : SyncResult × ClientState :=
  if st.isSyncing then (.alreadyInProgress, st)
  else if ¬ (st.isPremium ∧ st.cloudSyncEnabled ∧ st.hasAuthToken) then
    (.notEnabled, st)
  else if ¬ st.apiUrlConfigured then (.notConfigured, st)
  else if ¬ st.dbAvailable then (.dbUnavailable, st)
  else
    let r := processItems fetch now st.queue.length st.queue 0
      { st with isSyncing := true } 0 []
    (r.1, { r.2 with isSyncing := false })

/-- The `changes` payload of a pull response. -/
structure PulledChanges where
  projects : List ClientRec
  snippets : List ClientRec
  knowledge : List ClientRec
deriving DecidableEq, Repr

/-- The outcome of the pull fetch: a thrown network/parse error, a non-ok
HTTP status (re-thrown as `HTTP n` and caught below), or a body. -/
inductive PullOutcome where
  | netThrow (msg : JStr)
  | httpStatus (status : ℕ)
  | okData (data : PulledChanges)
deriving DecidableEq, Repr

/-- The structured results `pullFromCloud` can return. -/
inductive PullResult where
  | alreadyInProgress
  | notAvailable
  | failure
  | pulled (projects snippets knowledge : ℕ)
deriving DecidableEq, Repr

/-- The last-write-wins decision of the pull merge, per record: the pulled
row (stamped synced) wins iff the local copy is missing or strictly older
by `updatedAt` (`!local || item.updatedAt > (local.updatedAt || 0)`; on an
integer field `x || 0` is `x`); otherwise the local row is kept untouched. -/
def applyPulled (localRec : Option ClientRec) (item : ClientRec) (now : ℤ) :
    ClientRec :=
  match localRec with
  | none => markSyncedRec item now
  | some l => if item.updatedAt > l.updatedAt then markSyncedRec item now else l

/-- Merge one pulled row into a store: a winning pulled row is written with
`saveDataDirect` (a plain `put`, no queueing) and counted as imported. -/
def mergePulledRow (rows : List ClientRec) (item : ClientRec) (now : ℤ) :
    List ClientRec × ℕ :=
  match getByIdL rows item.id with
  | none => (putRow rows (markSyncedRec item now), 1)
  | some l =>
    if item.updatedAt > l.updatedAt then
      (putRow rows (markSyncedRec item now), 1)
    else (rows, 0)

def mergePulledList (rows : List ClientRec) (items : List ClientRec)
    (now : ℤ) : List ClientRec × ℕ :=
  items.foldl (fun acc item =>
    ((mergePulledRow acc.1 item now).1, acc.2 + (mergePulledRow acc.1 item now).2))
    (rows, 0)

/-- `pullFromCloud` from `src/storage.js`: guard and prerequisites before
setting `isSyncing`; the fetch/merge in `try`, errors in `catch` returning
`success:false`, and `isSyncing` cleared in `finally` on every path.  The
merge never touches the sync queue (`saveDataDirect` bypasses it). -/
def pullFromCloud (st : ClientState) (resp : PullOutcome) (now : ℤ) :
    PullResult × ClientState :=
  if st.isSyncing then (.alreadyInProgress, st)
  else if ¬ (st.isPremium ∧ st.hasAuthToken ∧ st.apiUrlConfigured) then
    (.notAvailable, st)
  else
    match resp with
    | .netThrow _ => (.failure, { st with isSyncing := false })
    | .httpStatus _ => (.failure, { st with isSyncing := false })
    | .okData d =>
      let p := mergePulledList st.stores.projects d.projects now
      let s := mergePulledList st.stores.snippets d.snippets now
      let k := mergePulledList st.stores.knowledge d.knowledge now
      (.pulled p.2 s.2 k.2,
        { st with
          stores := ⟨p.1, s.1, k.1⟩,
          lastCloudPullAt := now,
          isSyncing := false })

/-- Record-content equality up to the sync bookkeeping fields
(`syncStatus`, `lastSyncedAt`): same id, same `updatedAt`, same payload. -/
def sameContent (a b : ClientRec) : Prop :=
  a.id = b.id ∧ a.updatedAt = b.updatedAt ∧ a.payload = b.payload

/-! ## Concrete fixtures used by counterexamples and witnesses -/

/-- A server state owning one project `p1` for user `u`. -/
def c1State : ServerState :=
  { projects := [⟨("p1").toList, ("u").toList, ("proj").toList, none, 0, 0, 1, false⟩],
    snippets := [], knowledge := [], sessions := [] }

/-- A push batch with one valid snippet (project `p1`) and one snippet
referencing the unknown project `pX`. -/
def c1Body : PushBody :=
  { deviceId := ("d").toList, lastSyncVersion := 0,
    changes :=
      { projects := [],
        snippets :=
          [⟨("s1").toList, ("p1").toList, ("x").toList, ("js").toList,
            none, none, none, 0, none⟩,
           ⟨("s2").toList, ("pX").toList, ("y").toList, ("js").toList,
            none, none, none, 0, none⟩],
        knowledge := [] } }

/-- A push body creating (or re-pushing) one project, from device `d`. -/
def c3Body (d : JStr) : PushBody :=
  { deviceId := d, lastSyncVersion := 0,
    changes := { projects := [⟨("p").toList, ("n").toList, none, 0, none⟩],
                 snippets := [], knowledge := [] } }

/-- The server state after device `a` of user `u` pushed once into an empty
server. -/
def c3St1 : ServerState :=
  (push ⟨[], [], [], []⟩ (("u").toList) 1 (c3Body (("a").toList))).2

/-- ... and after device `a` pushed a second time. -/
def c3St2 : ServerState :=
  (push c3St1 (("u").toList) 2 (c3Body (("a").toList))).2

/-- A server state owning a project and a snippet of user `v`. -/
def c4State : ServerState :=
  { projects := [⟨("p").toList, ("v").toList, ("n").toList, none, 0, 0, 1, false⟩],
    snippets := [⟨("s").toList, ("v").toList, ("p").toList, ("c").toList,
      ("js").toList, none, none, none, 0, 0, 1, false⟩],
    knowledge := [], sessions := [] }

/-- A push by user `u` whose changes reuse `v`'s project and snippet ids
(the batch includes the project, so validation passes). -/
def c4Body : PushBody :=
  { deviceId := ("d").toList, lastSyncVersion := 0,
    changes :=
      { projects := [⟨("p").toList, ("evil").toList, none, 0, none⟩],
        snippets := [⟨("s").toList, ("p").toList, ("hacked").toList,
          ("js").toList, none, none, none, 0, none⟩],
        knowledge := [] } }

/-- A queue item freshly enqueued by `queueForSync` (`retries: 0`). -/
def c5Item : QueueItem :=
  ⟨1, .snippets, .upsert, ⟨("s").toList, 0, 0, none, none⟩, 0, 0⟩

/-- A premium, sync-enabled client with `c5Item` pending. -/
def c5State : ClientState :=
  { isPremium := true, cloudSyncEnabled := true, hasAuthToken := true,
    apiUrlConfigured := true, dbAvailable := true, lastCloudPullAt := 0,
    stores := ⟨[], [], []⟩, queue := [c5Item], isSyncing := false }

/-- One sync cycle in which the server answers every push with HTTP 500. -/
def c5Cycle (st : ClientState) : ClientState :=
  (processSyncQueue st (fun _ => .httpStatus 500) 0).2

def c5CycleResult (st : ClientState) : SyncResult :=
  (processSyncQueue st (fun _ => .httpStatus 500) 0).1

/-- A local record and a newer pulled record sharing the id `k`. -/
def c2Local : ClientRec := ⟨("k").toList, 1, 10, some .pending, none⟩

def c2Remote : ClientRec := ⟨("k").toList, 2, 20, none, none⟩

theorem ratMul_eq (a b : ℚ) : ratMul a b = a * b := by
  rw [ratMul, Rat.divInt_eq_div]
  push_cast
  conv_rhs => rw [← Rat.num_div_den a, ← Rat.num_div_den b]
  rw [div_mul_div_comm]

theorem ratAdd_eq (a b : ℚ) : ratAdd a b = a + b := by
  have ha : ((a.den : ℚ)) ≠ 0 := Nat.cast_ne_zero.mpr a.den_ne_zero
  have hb : ((b.den : ℚ)) ≠ 0 := Nat.cast_ne_zero.mpr b.den_ne_zero
  rw [ratAdd, Rat.divInt_eq_div]
  push_cast
  conv_rhs => rw [← Rat.num_div_den a, ← Rat.num_div_den b]
  rw [div_add_div _ _ ha hb]
  ring_nf

theorem mkRat_eq_div' (n : ℤ) (d : ℕ) : mkRat n d = (n : ℚ) / (d : ℚ) := by
  rw [Rat.mkRat_eq_divInt, Rat.divInt_eq_div]
  norm_num

theorem jsRound_eq (q : ℚ) : jsRound q = ⌊q + 1 / 2⌋ := by
  have h : (⌊q + 1 / 2⌋ : ℤ) = (q + 1 / 2 : ℚ).floor := rfl
  rw [jsRound, ratAdd_eq, h]
  norm_num [mkRat_eq_div']

theorem jsMax_eq_max (a b : ℚ) : jsMax a b = max a b := by
  rw [jsMax, max_def]
  rcases lt_trichotomy a b with h | h | h
  · rw [if_pos h, if_pos h.le]
  · subst h; simp
  · rw [if_neg (not_lt.mpr h.le), if_neg (not_le.mpr h)]

/-- Scanning `findDuplicateSnippet`'s loop past a prefix of snippets that
trigger neither the exact-hash branch nor the similarity branch leaves the
result unchanged. -/
theorem findDupSnippetAux_append_skip (nNew : JStr) (hNew : Option ℤ)
    (pre rest : List Snippet)
    (h : ∀ t ∈ pre, hashContent (normalizeContent t.code) ≠ hNew ∧
      ¬ calculateSimilarity nNew (normalizeContent t.code) > mkRat 4 5) :
    findDupSnippetAux nNew hNew (pre ++ rest) =
      findDupSnippetAux nNew hNew rest := by
  induction pre with
  | nil => rfl
  | cons t ts ih =>
    have ht := h t (List.mem_cons_self t ts)
    simp only [List.cons_append, findDupSnippetAux, if_neg ht.1, if_neg ht.2]
    exact ih (fun x hx => h x (List.mem_cons_of_mem t hx))

/-- Scanning `findDuplicateKnowledge`'s loop past a prefix of items that
trigger neither the exact-hash branch nor the similarity branch leaves the
result unchanged. -/
theorem findDupKnowledgeAux_append_skip (nAns : JStr) (hComb : Option ℤ)
    (pre rest : List Knowledge)
    (h : ∀ t ∈ pre,
      hashContent (normalizeContent t.question ++ normalizeContent t.answer) ≠ hComb ∧
      ¬ calculateSimilarity nAns (normalizeContent t.answer) > mkRat 17 20) :
    findDupKnowledgeAux nAns hComb (pre ++ rest) =
      findDupKnowledgeAux nAns hComb rest := by
  induction pre with
  | nil => rfl
  | cons t ts ih =>
    have ht := h t (List.mem_cons_self t ts)
    simp only [List.cons_append, findDupKnowledgeAux, if_neg ht.1, if_neg ht.2]
    exact ih (fun x hx => h x (List.mem_cons_of_mem t hx))

/-- Every element of `mergeInto acc r` is an element of `acc` or carries
`r`'s key. -/
theorem mem_mergeInto {acc : List MatchResult} {r x : MatchResult}
    (hx : x ∈ mergeInto acc r) : x ∈ acc ∨ x.key = r.key := by
  induction acc with
  | nil =>
    simp only [mergeInto, List.mem_singleton] at hx
    subst hx
    exact Or.inr rfl
  | cons e rest ih =>
    rw [mergeInto] at hx
    by_cases hk : e.key = r.key
    · rw [if_pos hk] at hx
      by_cases hs : r.relevanceScore > e.relevanceScore
      · rw [if_pos hs] at hx
        rcases List.mem_cons.mp hx with rfl | h
        · exact Or.inr rfl
        · exact Or.inl (List.mem_cons_of_mem _ h)
      · rw [if_neg hs] at hx
        exact Or.inl hx
    · rw [if_neg hk] at hx
      rcases List.mem_cons.mp hx with rfl | h
      · exact Or.inl (List.mem_cons_self _ _)
      · rcases ih h with h' | h'
        · exact Or.inl (List.mem_cons_of_mem _ h')
        · exact Or.inr h'

/-- `mergeInto` preserves pairwise-distinct keys. -/
theorem mergeInto_pairwise {acc : List MatchResult} (r : MatchResult)
    (h : acc.Pairwise keyNe) : (mergeInto acc r).Pairwise keyNe := by
  induction acc with
  | nil => simp [mergeInto]
  | cons e rest ih =>
    rw [mergeInto]
    rcases List.pairwise_cons.mp h with ⟨he, hrest⟩
    by_cases hk : e.key = r.key
    · rw [if_pos hk]
      by_cases hs : r.relevanceScore > e.relevanceScore
      · rw [if_pos hs]
        refine List.pairwise_cons.mpr ⟨?_, hrest⟩
        intro x hx
        show ({ r with
            matchReasons := e.matchReasons ++ r.matchReasons,
            relevanceScore := jsMax r.relevanceScore e.relevanceScore
          } : MatchResult).key ≠ x.key
        show r.key ≠ x.key
        rw [← hk]
        exact he x hx
      · rw [if_neg hs]; exact h
    · rw [if_neg hk]
      refine List.pairwise_cons.mpr ⟨?_, ih hrest⟩
      intro x hx
      rcases mem_mergeInto hx with h' | h'
      · exact he x h'
      · show e.key ≠ x.key
        rw [h']
        exact hk

/-- Collision behaviour of `mergeInto` against the first entry of the
accumulator carrying the candidate's key. -/
theorem mergeInto_collision (pre post : List MatchResult) (e r : MatchResult)
    (hk : e.key = r.key) (hpre : ∀ x ∈ pre, x.key ≠ r.key) :
    (r.relevanceScore > e.relevanceScore →
      mergeInto (pre ++ e :: post) r =
        pre ++ { r with
            matchReasons := e.matchReasons ++ r.matchReasons,
            relevanceScore := max r.relevanceScore e.relevanceScore } :: post) ∧
    (¬ r.relevanceScore > e.relevanceScore →
      mergeInto (pre ++ e :: post) r = pre ++ e :: post) := by
  induction pre with
  | nil =>
    constructor
    · intro hs
      simp only [List.nil_append, mergeInto, if_pos hk, if_pos hs, jsMax_eq_max]
    · intro hs
      simp only [List.nil_append, mergeInto, if_pos hk, if_neg hs]
  | cons x xs ih =>
    have hx := hpre x (List.mem_cons_self x xs)
    have ih' := ih (fun y hy => hpre y (List.mem_cons_of_mem x hy))
    constructor
    · intro hs
      simp only [List.cons_append, mergeInto, if_neg hx, List.append_eq,
        ih'.1 hs]
    · intro hs
      simp only [List.cons_append, mergeInto, if_neg hx, List.append_eq,
        ih'.2 hs]

theorem foldl_mergeInto_pairwise (rs : List MatchResult) :
    ∀ acc, acc.Pairwise keyNe → (rs.foldl mergeInto acc).Pairwise keyNe := by
  induction rs with
  | nil => intro acc h; exact h
  | cons r rest ih => intro acc h; exact ih _ (mergeInto_pairwise r h)

theorem keyNe_symm : Symmetric keyNe :=
  fun _ _ h => fun h2 => h h2.symm

theorem deduplicateAndSort_pairwise (rs : List MatchResult) :
    (deduplicateAndSort rs).Pairwise keyNe := by
  have h := foldl_mergeInto_pairwise rs [] List.Pairwise.nil
  have hperm := List.perm_insertionSort scoreGe (rs.foldl mergeInto [])
  rw [deduplicateAndSort]
  exact (hperm.pairwise_iff (fun hxy => keyNe_symm hxy)).mpr h

theorem deduplicateAndSort_sorted (rs : List MatchResult) :
    (deduplicateAndSort rs).Sorted scoreGe := by
  haveI : IsTotal MatchResult scoreGe :=
    ⟨fun a b => le_total b.relevanceScore a.relevanceScore⟩
  haveI : IsTrans MatchResult scoreGe :=
    ⟨fun _ _ _ hab hbc => le_trans hbc hab⟩
  exact List.sorted_insertionSort scoreGe _

/-- Every element of an upsert result was in the table, is the inserted
row, or is the update of a row that carried the inserted row's key. -/
theorem mem_upsertRow {ρ : Type} (keyOf ownerOf : ρ → JStr) (u : JStr)
    (newRow : ρ) (upd : ρ → ρ) :
    ∀ (rows : List ρ) (x : ρ), x ∈ upsertRow keyOf ownerOf u newRow upd rows →
      x ∈ rows ∨ x = newRow ∨ ∃ y ∈ rows, keyOf y = keyOf newRow ∧ x = upd y := by
  intro rows
  induction rows with
  | nil =>
    intro x hx
    simp only [upsertRow, List.mem_singleton] at hx
    exact Or.inr (Or.inl hx)
  | cons a rest ih =>
    intro x hx
    rw [upsertRow] at hx
    by_cases hk : keyOf a = keyOf newRow
    · rw [if_pos hk] at hx
      by_cases ho : ownerOf a = u
      · rw [if_pos ho] at hx
        rcases List.mem_cons.mp hx with rfl | h
        · exact Or.inr (Or.inr ⟨a, List.mem_cons_self a rest, hk, rfl⟩)
        · exact Or.inl (List.mem_cons_of_mem _ h)
      · rw [if_neg ho] at hx
        exact Or.inl hx
    · rw [if_neg hk] at hx
      rcases List.mem_cons.mp hx with rfl | h
      · exact Or.inl (List.mem_cons_self _ _)
      · rcases ih x h with h' | h' | ⟨y, hy, hky, hxy⟩
        · exact Or.inl (List.mem_cons_of_mem _ h')
        · exact Or.inr (Or.inl h')
        · exact Or.inr (Or.inr ⟨y, List.mem_cons_of_mem _ hy, hky, hxy⟩)

/-- Batch version of `mem_upsertRow`. -/
theorem mem_upsertBatch {γ ρ : Type} (keyOf ownerOf : ρ → JStr) (u : JStr)
    (mkRow : γ → ρ) (updRow : γ → ρ → ρ) :
    ∀ (cs : List γ) (rows : List ρ) (x : ρ),
      x ∈ upsertBatch keyOf ownerOf u mkRow updRow rows cs →
      x ∈ rows ∨ (∃ c, x = mkRow c) ∨ (∃ c y, x = updRow c y) := by
  intro cs
  induction cs with
  | nil => intro rows x hx; exact Or.inl hx
  | cons c rest ih =>
    intro rows x hx
    rcases ih (upsertRow keyOf ownerOf u (mkRow c) (updRow c) rows) x hx with
      h | h | h
    · rcases mem_upsertRow keyOf ownerOf u (mkRow c) (updRow c) rows x h with
        h' | h' | ⟨y, _, _, hxy⟩
      · exact Or.inl h'
      · exact Or.inr (Or.inl ⟨c, h'⟩)
      · exact Or.inr (Or.inr ⟨c, y, hxy⟩)
    · exact Or.inr (Or.inl h)
    · exact Or.inr (Or.inr h)

/-- The ownership `WHERE` on the conflict update protects rows of other
owners: a row not owned by the pusher survives an upsert exactly as it was,
and stays the unique row of its key. -/
theorem upsertRow_preserves {ρ : Type} (keyOf ownerOf : ρ → JStr) (u : JStr)
    (newRow : ρ) (upd : ρ → ρ)
    (hKeyUpd : ∀ y, keyOf (upd y) = keyOf y) :
    ∀ (rows : List ρ) (r : ρ), r ∈ rows → ownerOf r ≠ u →
      (∀ y ∈ rows, keyOf y = keyOf r → y = r) →
      r ∈ upsertRow keyOf ownerOf u newRow upd rows ∧
      (∀ y ∈ upsertRow keyOf ownerOf u newRow upd rows,
        keyOf y = keyOf r → y = r) := by
  intro rows
  induction rows with
  | nil => intro r hr _ _; exact absurd hr (List.not_mem_nil r)
  | cons a rest ih =>
    intro r hr hown huniq
    rw [upsertRow]
    by_cases hk : keyOf a = keyOf newRow
    · rw [if_pos hk]
      by_cases ho : ownerOf a = u
      · have har : a ≠ r := fun h => hown (h ▸ ho)
        have hr' : r ∈ rest := by
          rcases List.mem_cons.mp hr with h | h
          · exact absurd h.symm har
          · exact h
        rw [if_pos ho]
        constructor
        · exact List.mem_cons_of_mem _ hr'
        · intro y hy hky
          rcases List.mem_cons.mp hy with rfl | h
          · rw [hKeyUpd a] at hky
            exact absurd (huniq a (List.mem_cons_self a rest) hky) har
          · exact huniq y (List.mem_cons_of_mem _ h) hky
      · rw [if_neg ho]
        exact ⟨hr, huniq⟩
    · rw [if_neg hk]
      rcases List.mem_cons.mp hr with rfl | hr'
      · constructor
        · exact List.mem_cons_self _ _
        · intro y hy hky
          rcases List.mem_cons.mp hy with rfl | h
          · rfl
          · rcases mem_upsertRow keyOf ownerOf u newRow upd rest y h with
              h' | rfl | ⟨z, _, hkz, rfl⟩
            · exact huniq y (List.mem_cons_of_mem _ h') hky
            · exact absurd hky.symm hk
            · rw [hKeyUpd z] at hky
              exact absurd (hky.symm.trans hkz) hk
      · have hstep := ih r hr' hown
          (fun y hy => huniq y (List.mem_cons_of_mem _ hy))
        constructor
        · exact List.mem_cons_of_mem _ hstep.1
        · intro y hy hky
          rcases List.mem_cons.mp hy with rfl | h
          · exact huniq y (List.mem_cons_self _ _) hky
          · exact hstep.2 y h hky

/-- Batch version of `upsertRow_preserves`. -/
theorem upsertBatch_preserves {γ ρ : Type} (keyOf ownerOf : ρ → JStr)
    (u : JStr) (mkRow : γ → ρ) (updRow : γ → ρ → ρ)
    (hKeyUpd : ∀ c y, keyOf (updRow c y) = keyOf y) :
    ∀ (cs : List γ) (rows : List ρ) (r : ρ), r ∈ rows → ownerOf r ≠ u →
      (∀ y ∈ rows, keyOf y = keyOf r → y = r) →
      r ∈ upsertBatch keyOf ownerOf u mkRow updRow rows cs ∧
      (∀ y ∈ upsertBatch keyOf ownerOf u mkRow updRow rows cs,
        keyOf y = keyOf r → y = r) := by
  intro cs
  induction cs with
  | nil => intro rows r hr _ huniq; exact ⟨hr, huniq⟩
  | cons c rest ih =>
    intro rows r hr hown huniq
    have hstep := upsertRow_preserves keyOf ownerOf u (mkRow c) (updRow c)
      (hKeyUpd c) rows r hr hown huniq
    exact ih _ r hstep.1 hown hstep.2

/-- Writing a (user, device) session's version makes that pair's looked-up
version the written one. -/
theorem sessionVersionL_upd_same (l : List SyncSession) (u d : JStr)
    (v now : ℤ) : sessionVersionL (updSessionList l u d v now) u d = v := by
  induction l with
  | nil =>
    rw [updSessionList, sessionVersionL, List.find?_cons_of_pos _ (by simp)]
  | cons s rest ih =>
    rw [updSessionList]
    by_cases hs : s.userId = u ∧ s.deviceId = d
    · rw [if_pos hs, sessionVersionL,
        List.find?_cons_of_pos _ (by simp [hs.1, hs.2])]
    · rw [if_neg hs, sessionVersionL,
        List.find?_cons_of_neg _ (by simpa using hs)]
      exact ih

/-- Writing one (user, device) session leaves every other pair's looked-up
version unchanged. -/
theorem sessionVersionL_upd_other (l : List SyncSession) (uw dw u d : JStr)
    (v now : ℤ) (hne : ¬ (uw = u ∧ dw = d)) :
    sessionVersionL (updSessionList l uw dw v now) u d =
      sessionVersionL l u d := by
  induction l with
  | nil =>
    rw [updSessionList, sessionVersionL, sessionVersionL,
      List.find?_cons_of_neg _ (by simpa using hne)]
  | cons s rest ih =>
    rw [updSessionList]
    by_cases hs : s.userId = uw ∧ s.deviceId = dw
    · rw [if_pos hs]
      have hsd : ¬ (s.userId = u ∧ s.deviceId = d) := by
        intro h
        exact hne ⟨hs.1.symm.trans h.1, hs.2.symm.trans h.2⟩
      rw [sessionVersionL, sessionVersionL,
        List.find?_cons_of_neg _ (by simpa using hsd),
        List.find?_cons_of_neg _ (by simpa using hsd)]
    · rw [if_neg hs]
      by_cases hsd : s.userId = u ∧ s.deviceId = d
      · rw [sessionVersionL, sessionVersionL,
          List.find?_cons_of_pos _ (by simp [hsd.1, hsd.2]),
          List.find?_cons_of_pos _ (by simp [hsd.1, hsd.2])]
      · rw [sessionVersionL, sessionVersionL,
          List.find?_cons_of_neg _ (by simpa using hsd),
          List.find?_cons_of_neg _ (by simpa using hsd)]
        exact ih

theorem foldl_add_base (f : JStr → ℕ) (l : List JStr) (b : ℕ) :
    l.foldl (fun sc x => sc + f x) b = b + (l.map f).sum := by
  induction l generalizing b with
  | nil => simp
  | cons x xs ih => simp [List.foldl_cons, ih, Nat.add_assoc]

theorem any_dedup (l : List JStr) (p : JStr → Bool) : l.dedup.any p = l.any p := by
  cases ha : l.dedup.any p <;> cases hb : l.any p <;>
    simp_all [List.any_eq_true, List.mem_dedup]
  · obtain ⟨x, hx, hpx⟩ := hb
    exact absurd hpx (by simp [ha x hx])
  · obtain ⟨x, hx, hpx⟩ := ha
    exact absurd hpx (by simp [hb x hx])

end DevContext

namespace DevContext

set_option maxRecDepth 8000 in
/-- **C6, counterexample.**  The claim says that whenever the project
already contains a snippet whose code is identical after normalization, the
second save reports `matchType:'exact'`.  Here the project's scan order has
an earlier snippet of Jaccard similarity 5/6 > 0.8 (and a different hash),
so `findDuplicateSnippet` returns on it with `matchType:'similar'` even
though a later snippet is identical after normalization. -/
theorem c6_duplicate_exact_counterexample :
    normalizeContent (("aaa  bbb ccc ddd eee fff ").toList) =
      normalizeContent (("aaa bbb ccc ddd eee fff").toList) ∧
    findDuplicateSnippet (("aaa  bbb ccc ddd eee fff ").toList)
      [⟨1, ("aaa bbb ccc ddd eee").toList⟩,
       ⟨2, ("aaa bbb ccc ddd eee fff").toList⟩] =
      .similar 83 ⟨1, ("aaa bbb ccc ddd eee").toList⟩ := by
  exact ⟨by decide, by decide⟩

/-- **C6, amended.**  Saving code identical after normalization (trim,
lowercase, collapse whitespace runs) to an existing same-project snippet
reports `isDuplicate:true` with `matchType:'exact'`, provided no snippet
earlier in the project's scan order triggers a branch first (the scan
returns its first match, so an earlier ≥-threshold similar snippet reports
`matchType:'similar'` instead). -/
theorem c6_duplicate_exact_amended (code : JStr) (pre post : List Snippet)
    (s : Snippet)
    (hpre : ∀ t ∈ pre,
      hashContent (normalizeContent t.code) ≠
        hashContent (normalizeContent code) ∧
      ¬ calculateSimilarity (normalizeContent code)
          (normalizeContent t.code) > mkRat 4 5)
    (hs : normalizeContent s.code = normalizeContent code) :
    findDuplicateSnippet code (pre ++ s :: post) = .exact s := by
  rw [findDuplicateSnippet, findDupSnippetAux_append_skip _ _ _ _ hpre]
  simp only [findDupSnippetAux, hs, eq_self_iff_true, if_true]

set_option maxRecDepth 4000 in
/-- Witness for C6: the spec's own boundary scenario, a one-snippet
project. -/
theorem c6_duplicate_exact_witness :
    findDuplicateSnippet (("   const   x = 1;  ").toList)
      [⟨1, ("const x = 1;").toList⟩] =
      .exact ⟨1, ("const x = 1;").toList⟩ :=
  c6_duplicate_exact_amended (("   const   x = 1;  ").toList) [] []
    ⟨1, ("const x = 1;").toList⟩ (by simp) (by decide)

set_option maxRecDepth 8000 in
/-- **C7, counterexample.**  The claim says similarity *at or above* the
0.80 threshold reports a similar duplicate; the code requires strictly
greater (`similarity > 0.8`).  At exactly 4/5 no duplicate is reported. -/
theorem c7_similarity_threshold_counterexample :
    calculateSimilarity
      (normalizeContent (("aaa bbb ccc ddd").toList))
      (normalizeContent (("aaa bbb ccc ddd eee").toList)) = mkRat 4 5 ∧
    findDuplicateSnippet (("aaa bbb ccc ddd").toList)
      [⟨1, ("aaa bbb ccc ddd eee").toList⟩] = .noDup := by
  constructor
  · decide
  · decide

/-- **C7, amended.**  For a save that is not an exact match, a same-project
item whose token-set Jaccard similarity is *strictly above* the threshold
(0.80 for snippet code, 0.85 for knowledge answers) yields
`isDuplicate:true, matchType:'similar'` with the reported similarity equal
to the Jaccard value times 100, rounded (`⌊100·J + 1/2⌋`), provided no
earlier snippet in scan order triggers a branch first. -/
theorem c7_similarity_threshold_amended :
    (∀ (code : JStr) (pre post : List Snippet) (s : Snippet),
      (∀ t ∈ pre,
        hashContent (normalizeContent t.code) ≠
          hashContent (normalizeContent code) ∧
        ¬ calculateSimilarity (normalizeContent code)
            (normalizeContent t.code) > mkRat 4 5) →
      hashContent (normalizeContent s.code) ≠
        hashContent (normalizeContent code) →
      calculateSimilarity (normalizeContent code)
        (normalizeContent s.code) > mkRat 4 5 →
      findDuplicateSnippet code (pre ++ s :: post) =
        .similar ⌊calculateSimilarity (normalizeContent code)
            (normalizeContent s.code) * 100 + 1 / 2⌋ s) ∧
    (∀ (question answer : JStr) (pre post : List Knowledge) (k : Knowledge),
      (∀ t ∈ pre,
        hashContent (normalizeContent t.question ++ normalizeContent t.answer) ≠
          hashContent (normalizeContent question ++ normalizeContent answer) ∧
        ¬ calculateSimilarity (normalizeContent answer)
            (normalizeContent t.answer) > mkRat 17 20) →
      hashContent (normalizeContent k.question ++ normalizeContent k.answer) ≠
        hashContent (normalizeContent question ++ normalizeContent answer) →
      calculateSimilarity (normalizeContent answer)
        (normalizeContent k.answer) > mkRat 17 20 →
      findDuplicateKnowledge question answer (pre ++ k :: post) =
        .similar ⌊calculateSimilarity (normalizeContent answer)
            (normalizeContent k.answer) * 100 + 1 / 2⌋ k) := by
  constructor
  · intro code pre post s hpre hhash hsim
    rw [findDuplicateSnippet, findDupSnippetAux_append_skip _ _ _ _ hpre]
    simp only [findDupSnippetAux, if_neg hhash, if_pos hsim]
    rw [jsRound, ratAdd_eq, ratMul_eq]
    congr 1
    have h : (⌊calculateSimilarity (normalizeContent code)
        (normalizeContent s.code) * 100 + 1 / 2⌋ : ℤ) =
        ((calculateSimilarity (normalizeContent code)
          (normalizeContent s.code) * 100 + 1 / 2 : ℚ)).floor := rfl
    rw [h]
    norm_num [mkRat_eq_div']
  · intro question answer pre post k hpre hhash hsim
    rw [findDuplicateKnowledge, findDupKnowledgeAux_append_skip _ _ _ _ hpre]
    simp only [findDupKnowledgeAux, if_neg hhash, if_pos hsim]
    rw [jsRound, ratAdd_eq, ratMul_eq]
    congr 1
    have h : (⌊calculateSimilarity (normalizeContent answer)
        (normalizeContent k.answer) * 100 + 1 / 2⌋ : ℤ) =
        ((calculateSimilarity (normalizeContent answer)
          (normalizeContent k.answer) * 100 + 1 / 2 : ℚ)).floor := rfl
    rw [h]
    norm_num [mkRat_eq_div']

set_option maxRecDepth 4000 in
/-- Witness for C7: a 5/6-similar snippet save and a 9/10-similar knowledge
save, each against a one-item project. -/
theorem c7_similarity_threshold_witness :
    findDuplicateSnippet (("aaa bbb ccc ddd eee").toList)
      [⟨1, ("aaa bbb ccc ddd eee fff").toList⟩] =
      .similar ⌊calculateSimilarity
          (normalizeContent (("aaa bbb ccc ddd eee").toList))
          (normalizeContent (("aaa bbb ccc ddd eee fff").toList)) * 100 + 1 / 2⌋
        ⟨1, ("aaa bbb ccc ddd eee fff").toList⟩ ∧
    findDuplicateKnowledge (("why").toList) (("aaa bbb ccc ddd eee fff ggg hhh iii").toList)
      [⟨1, ("how").toList, ("aaa bbb ccc ddd eee fff ggg hhh iii jjj").toList⟩] =
      .similar ⌊calculateSimilarity
          (normalizeContent (("aaa bbb ccc ddd eee fff ggg hhh iii").toList))
          (normalizeContent (("aaa bbb ccc ddd eee fff ggg hhh iii jjj").toList)) * 100 + 1 / 2⌋
        ⟨1, ("how").toList, ("aaa bbb ccc ddd eee fff ggg hhh iii jjj").toList⟩ :=
  ⟨c7_similarity_threshold_amended.1 (("aaa bbb ccc ddd eee").toList) [] []
      ⟨1, ("aaa bbb ccc ddd eee fff").toList⟩ (by simp) (by decide) (by decide),
   c7_similarity_threshold_amended.2 (("why").toList)
      (("aaa bbb ccc ddd eee fff ggg hhh iii").toList) [] []
      ⟨1, ("how").toList, ("aaa bbb ccc ddd eee fff ggg hhh iii jjj").toList⟩
      (by simp) (by decide) (by decide)⟩

/-- **C8.**  `calculateSearchScore(query, text, weights)` equals the
reference definition: the exact weight times the lowercased query's length
is added when the lowercased query is a substring of the lowercased text,
and each query token (length > 2) adds the word weight when it appears
verbatim among the text tokens, else the partial weight when some text
token contains it or vice versa — at most one contribution per query
token. -/
theorem c8_search_score_matches_reference (query text : JStr)
    (w : SearchWeights) :
    calculateSearchScore query text w = searchScoreSpec query text w := by
  cases query with
  | nil =>
    simp [calculateSearchScore, searchScoreSpec, tokenizeForSearch, splitBy,
      splitByAux, toLowerStr]
  | cons qc qcs =>
    cases text with
    | nil =>
      have h1 : ¬ (toLowerStr (qc :: qcs) <:+: toLowerStr ([] : JStr)) := by
        simp [toLowerStr]
      simp [calculateSearchScore, searchScoreSpec, tokenizeForSearch, splitBy,
        splitByAux, toLowerStr, h1]
    | cons tc tcs =>
      rw [calculateSearchScore, searchScoreSpec]
      simp only [List.isEmpty_cons, Bool.or_self, Bool.false_eq_true,
        if_false]
      rw [foldl_add_base]
      congr 1
      refine congrArg List.sum (List.map_congr_left ?_)
      intro qw _
      by_cases hmem : qw ∈ tokenizeForSearch (tc :: tcs)
      · rw [if_pos (List.mem_dedup.mpr hmem), if_pos hmem]
      · rw [if_neg (fun h => hmem (List.mem_dedup.mp h)), if_neg hmem,
          partialHit, any_dedup]

/-- **C9, counterexample.**  The claim says colliding candidates always get
their match-reason lists concatenated.  Here the second candidate collides
with a lower score (30 < 50), so `deduplicateAndSort` keeps the first entry
untouched and the second candidate's reasons are discarded, not
concatenated. -/
theorem c9_merge_reasons_counterexample :
    deduplicateAndSort
      [⟨7, .snippet, 50, [⟨.language_match, 1, []⟩]⟩,
       ⟨7, .snippet, 30, [⟨.error_match, 1, []⟩]⟩] =
      [⟨7, .snippet, 50, [⟨.language_match, 1, []⟩]⟩] ∧
    [(⟨.language_match, 1, []⟩ : MatchReason)] ≠
      [⟨.language_match, 1, []⟩, ⟨.error_match, 1, []⟩] :=
  ⟨by decide, by decide⟩

/-- **C9, amended.**  The merge combines candidates keyed by
`(type, item id)`.  When a candidate collides with the entry already merged
for its key, the entry keeps the maximum of the two scores; its match
reasons become the concatenation of both reason lists only when the new
candidate's score strictly exceeds the existing one — otherwise the
existing entry is kept unchanged and the new candidate's reasons are
discarded.  The merged output has at most one entry per key and is sorted
descending by relevance score. -/
theorem c9_merge_max_concat_amended :
    (∀ (pre post : List MatchResult) (e r : MatchResult),
      e.key = r.key → (∀ x ∈ pre, x.key ≠ r.key) →
      (r.relevanceScore > e.relevanceScore →
        mergeInto (pre ++ e :: post) r =
          pre ++ { r with
              matchReasons := e.matchReasons ++ r.matchReasons,
              relevanceScore :=
                max r.relevanceScore e.relevanceScore } :: post) ∧
      (¬ r.relevanceScore > e.relevanceScore →
        mergeInto (pre ++ e :: post) r = pre ++ e :: post ∧
        e.relevanceScore = max r.relevanceScore e.relevanceScore)) ∧
    (∀ rs : List MatchResult, (deduplicateAndSort rs).Pairwise keyNe) ∧
    (∀ rs : List MatchResult, (deduplicateAndSort rs).Sorted scoreGe) := by
  refine ⟨?_, deduplicateAndSort_pairwise, deduplicateAndSort_sorted⟩
  intro pre post e r hk hpre
  refine ⟨(mergeInto_collision pre post e r hk hpre).1, fun hs => ?_⟩
  exact ⟨(mergeInto_collision pre post e r hk hpre).2 hs,
    (max_eq_right (not_lt.mp hs)).symm⟩

/-- Witness for C9: a higher-scoring collision produces the merged entry
with concatenated reasons and the max score. -/
theorem c9_merge_max_concat_witness :
    mergeInto [⟨7, .snippet, 50, [⟨.language_match, 1, []⟩]⟩]
        ⟨7, .snippet, 60, [⟨.error_match, 1, []⟩]⟩ =
      [⟨7, .snippet, max (60 : ℚ) 50,
        [⟨.language_match, 1, []⟩, ⟨.error_match, 1, []⟩]⟩] :=
  (c9_merge_max_concat_amended.1 [] []
      ⟨7, .snippet, 50, [⟨.language_match, 1, []⟩]⟩
      ⟨7, .snippet, 60, [⟨.error_match, 1, []⟩]⟩ rfl (by simp)).1 (by decide)

set_option maxRecDepth 20000 in
/-- **C1, counterexample.**  The claim says invalid items are dropped while
the rest of the batch persists.  On a batch with one valid snippet (`p1`)
and one snippet referencing the unknown project `pX`, the push returns 400
listing `pX` and leaves the server state completely unchanged — the valid
snippet `s1` is *not* persisted. -/
theorem c1_invalid_ref_counterexample :
    push c1State (("u").toList) 100 c1Body =
      (.badRequest [("pX").toList], c1State) ∧
    (push c1State (("u").toList) 100 c1Body).2.snippets = [] :=
  ⟨by decide, by decide⟩

/-- **C1, amended.**  A push batch containing a Snippet or Knowledge change
whose projectId references neither an owned project nor a project in the
same batch returns 400 listing the invalid project references, and the
whole request is rejected: the server state is unchanged, so no item of the
batch — valid or not — is persisted. -/
theorem c1_invalid_ref_amended (st : ServerState) (u : JStr) (now : ℤ)
    (body : PushBody) (h : invalidRefs st u body ≠ []) :
    push st u now body = (.badRequest (invalidRefs st u body), st) := by
  have hfalse : (invalidRefs st u body).isEmpty = false := by
    cases hl : invalidRefs st u body with
    | nil => exact absurd hl h
    | cons a l => rfl
  simp [push, hfalse]

set_option maxRecDepth 20000 in
/-- Witness for C1: the two-snippet batch against the one-project state. -/
theorem c1_invalid_ref_witness :
    push c1State (("u").toList) 200 c1Body =
      (.badRequest (invalidRefs c1State (("u").toList) c1Body), c1State) :=
  c1_invalid_ref_amended c1State (("u").toList) 200 c1Body (by decide)

set_option maxRecDepth 20000 in
/-- **C3, counterexample.**  Sync sessions are per (user, device) and each
starts at 0.  After device `a` of user `u` pushed twice (stamping versions
1 then 2), a push by device `b` of the same user succeeds with syncVersion
1 and stamps the written row with 1 < 2 — the per-user monotonicity the
claim states is violated. -/
theorem c3_user_monotonicity_counterexample :
    (push c3St1 (("u").toList) 2 (c3Body (("a").toList))).1 = .ok 2 ∧
    c3St2.projects.map (·.syncVersion) = [2] ∧
    (push c3St2 (("u").toList) 3 (c3Body (("b").toList))).1 = .ok 1 ∧
    (push c3St2 (("u").toList) 3 (c3Body (("b").toList))).2.projects.map
      (·.syncVersion) = [1] :=
  ⟨by decide, by decide, by decide, by decide⟩

/-- **C3, amended.**  `syncVersion` is monotone per (user, device), not per
user: a successful push responds with and stamps written rows with its own
device session's version + 1, updates that session to the stamped value,
and pushes by any other (user, device) pair leave the session untouched —
so the versions stamped by one device strictly increase across its
successful pushes in any interleaving, while a different device of the same
user can stamp a smaller version. -/
theorem c3_device_monotonicity_amended :
    (∀ (st : ServerState) (u : JStr) (now : ℤ) (body : PushBody) (v : ℤ),
      (push st u now body).1 = .ok v →
      v = sessionVersion st u body.deviceId + 1 ∧
      sessionVersion (push st u now body).2 u body.deviceId = v ∧
      (∀ r ∈ (push st u now body).2.projects,
        r ∈ st.projects ∨ r.syncVersion = v) ∧
      (∀ r ∈ (push st u now body).2.snippets,
        r ∈ st.snippets ∨ r.syncVersion = v) ∧
      (∀ r ∈ (push st u now body).2.knowledge,
        r ∈ st.knowledge ∨ r.syncVersion = v)) ∧
    (∀ (st : ServerState) (uw : JStr) (now : ℤ) (body : PushBody)
      (u d : JStr), ¬ (uw = u ∧ body.deviceId = d) →
      sessionVersion (push st uw now body).2 u d = sessionVersion st u d) := by
  constructor
  · intro st u now body v hok
    by_cases hinv : (invalidRefs st u body).isEmpty = true
    · have hpush : push st u now body = applyPush st u now body := by
        simp [push, hinv]
      rw [hpush] at hok ⊢
      have hv : sessionVersionL st.sessions u body.deviceId + 1 = v := by
        have hfst : (applyPush st u now body).1 =
            .ok (sessionVersionL st.sessions u body.deviceId + 1) := rfl
        rw [hfst] at hok
        exact (PushResponse.ok.injEq _ _).mp hok
      refine ⟨hv.symm, ?_, ?_, ?_, ?_⟩
      · show sessionVersionL
          (updSessionList st.sessions u body.deviceId
            (sessionVersionL st.sessions u body.deviceId + 1) now)
          u body.deviceId = v
        rw [sessionVersionL_upd_same]
        exact hv
      · intro r hr
        have hr' : r ∈ upsertBatch (·.id) (·.userId) u
            (projRowOfChange u now
              (sessionVersionL st.sessions u body.deviceId + 1))
            (projUpdate now
              (sessionVersionL st.sessions u body.deviceId + 1))
            st.projects body.changes.projects := hr
        rcases mem_upsertBatch (·.id) (·.userId) u
            (projRowOfChange u now
              (sessionVersionL st.sessions u body.deviceId + 1))
            (projUpdate now
              (sessionVersionL st.sessions u body.deviceId + 1))
            body.changes.projects st.projects r hr' with
          h | ⟨c, rfl⟩ | ⟨c, y, rfl⟩
        · exact Or.inl h
        · exact Or.inr hv
        · exact Or.inr hv
      · intro r hr
        have hr' : r ∈ upsertBatch (·.id) (·.userId) u
            (snipRowOfChange u now
              (sessionVersionL st.sessions u body.deviceId + 1))
            (snipUpdate now
              (sessionVersionL st.sessions u body.deviceId + 1))
            st.snippets
            (body.changes.snippets.filter
              (fun s => decide (s.projectId ∈ validProjIds body))) := hr
        rcases mem_upsertBatch (·.id) (·.userId) u
            (snipRowOfChange u now
              (sessionVersionL st.sessions u body.deviceId + 1))
            (snipUpdate now
              (sessionVersionL st.sessions u body.deviceId + 1))
            (body.changes.snippets.filter
              (fun s => decide (s.projectId ∈ validProjIds body)))
            st.snippets r hr' with
          h | ⟨c, rfl⟩ | ⟨c, y, rfl⟩
        · exact Or.inl h
        · exact Or.inr hv
        · exact Or.inr hv
      · intro r hr
        have hr' : r ∈ upsertBatch (·.id) (·.userId) u
            (knowRowOfChange u now
              (sessionVersionL st.sessions u body.deviceId + 1))
            (knowUpdate now
              (sessionVersionL st.sessions u body.deviceId + 1))
            st.knowledge
            (body.changes.knowledge.filter
              (fun k => decide (k.projectId ∈ validProjIds body))) := hr
        rcases mem_upsertBatch (·.id) (·.userId) u
            (knowRowOfChange u now
              (sessionVersionL st.sessions u body.deviceId + 1))
            (knowUpdate now
              (sessionVersionL st.sessions u body.deviceId + 1))
            (body.changes.knowledge.filter
              (fun k => decide (k.projectId ∈ validProjIds body)))
            st.knowledge r hr' with
          h | ⟨c, rfl⟩ | ⟨c, y, rfl⟩
        · exact Or.inl h
        · exact Or.inr hv
        · exact Or.inr hv
    · have hpush : push st u now body =
          (.badRequest (invalidRefs st u body), st) := by
        simp [push, hinv]
      rw [hpush] at hok
      exact absurd hok (by simp)
  · intro st uw now body u d hne
    by_cases hinv : (invalidRefs st uw body).isEmpty = true
    · have hpush : push st uw now body = applyPush st uw now body := by
        simp [push, hinv]
      rw [hpush]
      exact sessionVersionL_upd_other st.sessions uw body.deviceId u d _ now hne
    · have hpush : push st uw now body =
          (.badRequest (invalidRefs st uw body), st) := by
        simp [push, hinv]
      rw [hpush]

set_option maxRecDepth 20000 in
/-- Witness for C3: device `a`'s second push stamped 2 and set its session
to 2; device `b`'s subsequent push left device `a`'s session untouched. -/
theorem c3_device_monotonicity_witness :
    sessionVersion c3St2 (("u").toList) (("a").toList) = 2 ∧
    sessionVersion (push c3St2 (("u").toList) 3 (c3Body (("b").toList))).2
      (("u").toList) (("a").toList) =
      sessionVersion c3St2 (("u").toList) (("a").toList) :=
  ⟨(c3_device_monotonicity_amended.1 c3St1 (("u").toList) 2
      (c3Body (("a").toList)) 2 (by decide)).2.1,
   c3_device_monotonicity_amended.2 c3St2 (("u").toList) 3
      (c3Body (("b").toList)) (("u").toList) (("a").toList) (by decide)⟩

/-- **C4.**  The conflict updates carry `WHERE table.userId = pusher`, so a
push can never overwrite another user's row: any project/snippet/knowledge
row owned by a different user — unique for its id — survives any push by
this user completely unchanged, and stays the unique row of its id. -/
theorem c4_cross_user_write_isolation (st : ServerState) (u : JStr)
    (now : ℤ) (body : PushBody) :
    (∀ r ∈ st.projects, r.userId ≠ u →
      (∀ y ∈ st.projects, y.id = r.id → y = r) →
      r ∈ (push st u now body).2.projects ∧
      ∀ y ∈ (push st u now body).2.projects, y.id = r.id → y = r) ∧
    (∀ r ∈ st.snippets, r.userId ≠ u →
      (∀ y ∈ st.snippets, y.id = r.id → y = r) →
      r ∈ (push st u now body).2.snippets ∧
      ∀ y ∈ (push st u now body).2.snippets, y.id = r.id → y = r) ∧
    (∀ r ∈ st.knowledge, r.userId ≠ u →
      (∀ y ∈ st.knowledge, y.id = r.id → y = r) →
      r ∈ (push st u now body).2.knowledge ∧
      ∀ y ∈ (push st u now body).2.knowledge, y.id = r.id → y = r) := by
  by_cases hinv : (invalidRefs st u body).isEmpty = true
  · have hpush : push st u now body = applyPush st u now body := by
      simp [push, hinv]
    rw [hpush]
    refine ⟨?_, ?_, ?_⟩
    · intro r hr hown huniq
      exact upsertBatch_preserves (·.id) (·.userId) u
        (projRowOfChange u now
          (sessionVersionL st.sessions u body.deviceId + 1))
        (projUpdate now (sessionVersionL st.sessions u body.deviceId + 1))
        (fun _ _ => rfl) body.changes.projects st.projects r hr hown huniq
    · intro r hr hown huniq
      exact upsertBatch_preserves (·.id) (·.userId) u
        (snipRowOfChange u now
          (sessionVersionL st.sessions u body.deviceId + 1))
        (snipUpdate now (sessionVersionL st.sessions u body.deviceId + 1))
        (fun _ _ => rfl)
        (body.changes.snippets.filter
          (fun s => decide (s.projectId ∈ validProjIds body)))
        st.snippets r hr hown huniq
    · intro r hr hown huniq
      exact upsertBatch_preserves (·.id) (·.userId) u
        (knowRowOfChange u now
          (sessionVersionL st.sessions u body.deviceId + 1))
        (knowUpdate now (sessionVersionL st.sessions u body.deviceId + 1))
        (fun _ _ => rfl)
        (body.changes.knowledge.filter
          (fun k => decide (k.projectId ∈ validProjIds body)))
        st.knowledge r hr hown huniq
  · have hpush : push st u now body =
        (.badRequest (invalidRefs st u body), st) := by
      simp [push, hinv]
    rw [hpush]
    exact ⟨fun r hr _ huniq => ⟨hr, huniq⟩,
           fun r hr _ huniq => ⟨hr, huniq⟩,
           fun r hr _ huniq => ⟨hr, huniq⟩⟩

set_option maxRecDepth 20000 in
/-- Witness for C4: user `u` pushes changes reusing `v`'s project and
snippet ids; `v`'s rows survive. -/
theorem c4_cross_user_write_isolation_witness :
    (⟨("p").toList, ("v").toList, ("n").toList, none, 0, 0, 1, false⟩ :
      ProjRow) ∈ (push c4State (("u").toList) 9 c4Body).2.projects ∧
    (⟨("s").toList, ("v").toList, ("p").toList, ("c").toList, ("js").toList,
      none, none, none, 0, 0, 1, false⟩ : SnipRow) ∈
      (push c4State (("u").toList) 9 c4Body).2.snippets :=
  ⟨((c4_cross_user_write_isolation c4State (("u").toList) 9 c4Body).1
      ⟨("p").toList, ("v").toList, ("n").toList, none, 0, 0, 1, false⟩
      (by decide) (by decide) (by decide)).1,
   ((c4_cross_user_write_isolation c4State (("u").toList) 9 c4Body).2.1
      ⟨("s").toList, ("v").toList, ("p").toList, ("c").toList, ("js").toList,
        none, none, none, 0, 0, 1, false⟩
      (by decide) (by decide) (by decide)).1⟩

set_option maxRecDepth 20000 in
/-- **C5, code bug.**  `item.retries++` mutates only the in-memory snapshot
and is never written back to the syncQueue store, so a persistently failing
item (stored `retries: 0`, server answering 500) makes the whole sync cycle
a fixpoint: the item is still queued with `retries = 0` after every cycle,
every cycle reports it as `pending` with an empty error list, and the
retry cap of 3 is never reached — the item is retried forever instead of
being dropped and reported as unrecoverable. -/
theorem c5_retry_cap_never_enforced :
    c5CycleResult c5State = .done 0 1 [] ∧
    c5Cycle c5State = c5State ∧
    ∀ n : ℕ, c5Cycle^[n] c5State = c5State := by
  have hfix : c5Cycle c5State = c5State := by decide
  refine ⟨by decide, hfix, ?_⟩
  intro n
  induction n with
  | zero => rfl
  | succ k ih => rw [Function.iterate_succ_apply', ih, hfix]

/-- Helper for C2: a `put` row is what `getById` then finds for its id. -/
theorem getByIdL_putRow (rows : List ClientRec) (r : ClientRec) :
    getByIdL (putRow rows r) r.id = some r := by
  induction rows with
  | nil =>
    rw [putRow, getByIdL, List.find?_cons_of_pos _ (by simp)]
  | cons x rest ih =>
    rw [putRow]
    by_cases hx : x.id = r.id
    · rw [if_pos hx, getByIdL, List.find?_cons_of_pos _ (by simp)]
    · rw [if_neg hx, getByIdL, List.find?_cons_of_neg _ (by simpa using hx)]
      exact ih

/-- **C2.**  The pull merge is last-write-wins on `updatedAt`: with no
local counterpart the pulled row is stored (stamped synced); with a local
counterpart the stored record is the pulled row iff
`R.updatedAt > L.updatedAt` and otherwise is the untouched local row; the
stamped row is marked `syncStatus='synced'` and content-equal to `R`; and
the merge writes directly, leaving the Sync Queue unchanged. -/
theorem c2_pull_merge_last_write_wins (l r : ClientRec) (now : ℤ)
    (rows : List ClientRec) :
    (applyPulled none r now = markSyncedRec r now) ∧
    (r.updatedAt > l.updatedAt →
      applyPulled (some l) r now = markSyncedRec r now) ∧
    (¬ r.updatedAt > l.updatedAt → applyPulled (some l) r now = l) ∧
    ((markSyncedRec r now).syncStatus = some .synced ∧
      sameContent (markSyncedRec r now) r) ∧
    (r.payload ≠ l.payload →
      (sameContent (applyPulled (some l) r now) r ↔
        r.updatedAt > l.updatedAt)) ∧
    (getByIdL rows r.id = none →
      getByIdL (mergePulledRow rows r now).1 r.id =
        some (applyPulled none r now)) ∧
    (getByIdL rows r.id = some l →
      getByIdL (mergePulledRow rows r now).1 r.id =
        some (applyPulled (some l) r now)) ∧
    (∀ (st : ClientState) (resp : PullOutcome),
      (pullFromCloud st resp now).2.queue = st.queue) := by
  refine ⟨rfl, ?_, ?_, ⟨rfl, rfl, rfl, rfl⟩, ?_, ?_, ?_, ?_⟩
  · intro hgt
    simp [applyPulled, if_pos hgt]
  · intro hle
    simp [applyPulled, if_neg hle]
  · intro hpay
    constructor
    · intro hsame
      by_contra hle
      rw [applyPulled] at hsame
      rw [if_neg hle] at hsame
      exact hpay hsame.2.2.symm
    · intro hgt
      rw [applyPulled, if_pos hgt]
      exact ⟨rfl, rfl, rfl⟩
  · intro hnone
    show getByIdL (mergePulledRow rows r now).1 r.id =
      some (markSyncedRec r now)
    rw [mergePulledRow, hnone]
    exact getByIdL_putRow rows _
  · intro hsome
    simp only [mergePulledRow, hsome]
    by_cases hgt : r.updatedAt > l.updatedAt
    · rw [if_pos hgt]
      show getByIdL (putRow rows (markSyncedRec r now)) r.id =
        some (applyPulled (some l) r now)
      rw [applyPulled, if_pos hgt]
      exact getByIdL_putRow rows _
    · rw [if_neg hgt]
      show getByIdL rows r.id = some (applyPulled (some l) r now)
      rw [applyPulled, if_neg hgt]
      exact hsome
  · intro st resp
    rw [pullFromCloud.eq_def]
    by_cases h1 : st.isSyncing
    · rw [if_pos h1]
    · rw [if_neg h1]
      by_cases h2 : ¬ (st.isPremium ∧ st.hasAuthToken ∧ st.apiUrlConfigured)
      · rw [if_pos h2]
      · rw [if_neg h2]
        cases resp <;> rfl

/-- Witness for C2: pulled row `c2Remote` (updatedAt 2) against local
`c2Local` (updatedAt 1), and the reversed, losing direction. -/
theorem c2_pull_merge_witness :
    applyPulled (some c2Local) c2Remote 5 = markSyncedRec c2Remote 5 ∧
    applyPulled (some c2Remote) c2Local 5 = c2Remote ∧
    getByIdL (mergePulledRow [c2Local] c2Remote 5).1 c2Remote.id =
      some (applyPulled (some c2Local) c2Remote 5) ∧
    getByIdL (mergePulledRow [] c2Remote 5).1 c2Remote.id =
      some (applyPulled none c2Remote 5) ∧
    (sameContent (applyPulled (some c2Local) c2Remote 5) c2Remote ↔
      c2Remote.updatedAt > c2Local.updatedAt) :=
  ⟨(c2_pull_merge_last_write_wins c2Local c2Remote 5 []).2.1 (by decide),
   (c2_pull_merge_last_write_wins c2Remote c2Local 5 []).2.2.1 (by decide),
   (c2_pull_merge_last_write_wins c2Local c2Remote 5 [c2Local]).2.2.2.2.2.2.1
     (by decide),
   (c2_pull_merge_last_write_wins c2Local c2Remote 5 []).2.2.2.2.2.1
     (by decide),
   (c2_pull_merge_last_write_wins c2Local c2Remote 5 []).2.2.2.2.1
     (by decide)⟩

/-- **C10.**  Both sync entry points clear the `isSyncing` guard on every
exit: the prerequisite checks run before the flag is set, and the body runs
under `try/finally`, so starting from an un-held guard every call — success,
HTTP error, thrown fetch, or early 401 return — ends with `isSyncing =
false` and cannot leave the client permanently reporting a sync in
progress. -/
theorem c10_sync_guard_cleared (st : ClientState) (fetch : ℕ → FetchOutcome)
    (resp : PullOutcome) (now : ℤ) (h : st.isSyncing = false) :
    (processSyncQueue st fetch now).2.isSyncing = false ∧
    (pullFromCloud st resp now).2.isSyncing = false := by
  constructor
  · rw [processSyncQueue]
    by_cases h1 : st.isSyncing
    · rw [if_pos h1]; exact h
    · rw [if_neg h1]
      by_cases h2 : ¬ (st.isPremium ∧ st.cloudSyncEnabled ∧ st.hasAuthToken)
      · rw [if_pos h2]; exact h
      · rw [if_neg h2]
        by_cases h3 : ¬ st.apiUrlConfigured
        · rw [if_pos h3]; exact h
        · rw [if_neg h3]
          by_cases h4 : ¬ st.dbAvailable
          · rw [if_pos h4]; exact h
          · rw [if_neg h4]
  · rw [pullFromCloud.eq_def]
    by_cases h1 : st.isSyncing
    · rw [if_pos h1]; exact h
    · rw [if_neg h1]
      by_cases h2 : ¬ (st.isPremium ∧ st.hasAuthToken ∧ st.apiUrlConfigured)
      · rw [if_pos h2]; exact h
      · rw [if_neg h2]
        cases resp <;> rfl

set_option maxRecDepth 20000 in
/-- Witness for C10: a thrown push fetch and a 500 pull against the premium
client both leave the guard clear. -/
theorem c10_sync_guard_cleared_witness :
    (processSyncQueue c5State (fun _ => .netThrow (("x").toList)) 0).2.isSyncing
      = false ∧
    (pullFromCloud c5State (.httpStatus 500) 0).2.isSyncing = false :=
  c10_sync_guard_cleared c5State (fun _ => .netThrow (("x").toList))
    (.httpStatus 500) 0 (by decide)

end DevContext
